import Mathlib

/-!
Verification of the pyblend utility library against its specification.

This file gives a shallow embedding of the pure logic of the pyblend
helpers (`pyblend/file_io/paths.py`, `pyblend/util.py`,
`pyblend/file_io/fbx.py`, `pyblend/file_io/gltf.py`, `pyblend/armature.py`,
`pyblend/object.py`, `pyblend/shapekeys.py`).  Host-application state
(objects, meshes, modifier stacks, shape keys, the file system, the
export operators) is modelled by explicit Lean structures, and the
host-computed mesh deformation is an explicit function parameter.
Floating-point weights and colour values are modelled by `ℚ` and `ℝ`
respectively; machine floats' rounding plays no role in the properties
proved here.
-/

/-! ### File-system paths (`pyblend/file_io/paths.py`) -/

/-- Kind of a file-system entry, distinguishing directories from regular
files and anything else; used to model `Path.exists` and `Path.is_dir`. -/
inductive EntryKind
  | file
  | dir
  | other
deriving DecidableEq

/-- Abstract file system: maps a path to the kind of the entry stored
there, or `none` when no entry exists. -/
structure FileSystem where
  entry : String → Option EntryKind

/-- Model of `pathlib.Path.exists`: the path names some entry. -/
def FileSystem.pathDoesExist (fs : FileSystem) (p : String) : Bool :=
  (fs.entry p).isSome

/-- Model of `pathlib.Path.is_dir`: the path names a directory. -/
def FileSystem.isDirectory (fs : FileSystem) (p : String) : Bool :=
  match fs.entry p with
  | some EntryKind.dir => true
  | _ => false

/-- Embedding of `path_exists`: `path.exists() and path.is_dir()`. -/
def path_exists (fs : FileSystem) (p : String) : Bool :=
  fs.pathDoesExist p && fs.isDirectory p

/-- Embedding of `paths_exist`:
`all(path_exists(path) for path in paths)`. -/
def paths_exist (fs : FileSystem) (ps : List String) : Bool :=
  ps.all (path_exists fs)

/-- C9: `path_exists` returns `true` only for existing directories (an
existing regular file yields `false`), and `paths_exist` holds exactly
when `path_exists` holds for every listed path, hence holds for `[]`. -/
theorem path_exists_requires_directory (fs : FileSystem) (p : String)
    (ps : List String) :
    (path_exists fs p = true → fs.entry p = some EntryKind.dir)
    ∧ (fs.entry p = some EntryKind.file → path_exists fs p = false)
    ∧ (paths_exist fs ps = true ↔ ∀ q ∈ ps, path_exists fs q = true)
    ∧ paths_exist fs [] = true := by
  refine ⟨?_, ?_, ?_, rfl⟩
  · intro h
    unfold path_exists FileSystem.pathDoesExist FileSystem.isDirectory at h
    cases he : fs.entry p with
    | none => rw [he] at h; simp at h
    | some k => cases k <;> rw [he] at h <;> simp_all
  · intro h
    unfold path_exists FileSystem.pathDoesExist FileSystem.isDirectory
    rw [h]
    simp
  · unfold paths_exist
    exact List.all_eq_true

/-- Example file system used by witnesses: one directory and one file. -/
def exampleFS : FileSystem :=
  ⟨fun p => if p = "/data" then some EntryKind.dir
            else if p = "/data/notes.txt" then some EntryKind.file
            else none⟩

/-- Witness for C9 at a concrete file system: the regular file
`/data/notes.txt` exists yet `path_exists` is `false` on it, and the
singleton directory list passes `paths_exist`. -/
theorem path_exists_requires_directory_witness :
    path_exists exampleFS "/data/notes.txt" = false
    ∧ paths_exist exampleFS ["/data"] = true :=
  ⟨(path_exists_requires_directory exampleFS "/data/notes.txt" []).2.1
      (by decide),
   (path_exists_requires_directory exampleFS "/data" ["/data"]).2.2.1.2
      (by intro q hq; simp at hq; subst hq; decide)⟩

/-! ### Shape-suffix stripping (`remove_shape_suffix` in
`pyblend/file_io/paths.py`).  Python's regex class `\w` matches Unicode
word characters, a class whose full tables a shallow embedding cannot
carry, so the embedding takes the class as a predicate parameter `w`
(constrained only by the fact, true of the real class, that `-` is not
a word character); `asciiWordChar` is the class's restriction to ASCII,
with which it agrees on ASCII characters, and instantiates `w` on the
concrete, all-ASCII inputs below.  `Path.with_stem` raises `ValueError`
when the resulting file name (stem plus suffix) would be empty or the
special name `.`; an `Option` result models that exception. -/

/-- A `pathlib` path split into its directory part, stem and suffix;
the path's file name is the stem followed by the suffix. -/
structure PyPath where
  parent : String
  stem : String
  suffix : String
deriving DecidableEq

/-- The regex class `\w` restricted to ASCII: a letter, a digit or an
underscore.  On ASCII characters this coincides with Python's Unicode
class. -/
def asciiWordChar (c : Char) : Bool :=
  c.isAlphanum || c = '_'

/-- Semantics of `re.sub(r"(.*)-\w$", r"\g<1>", stem)` on an arbitrary
stem, the word-character class `w` a parameter.  The greedy,
`$`-anchored pattern matches exactly when the stem ends in a hyphen
followed by a word character, in which case those two characters are
removed; since Python's `$` also matches just before a newline that
terminates the string, a stem ending in hyphen, word character, newline
likewise loses the hyphen and word character. -/
def stripShapePattern (w : Char → Bool) (s : List Char) : List Char :=
  match s.reverse with
  | c :: '-' :: rest => if w c then rest.reverse else s
  | '\n' :: c :: '-' :: rest =>
      if w c then (rest.reverse).concat '\n' else s
  | _ => s

/-- Model of `Path.with_stem`: rebuild the path with the new stem, or
`none` for the `ValueError` that `with_name` raises when the new file
name (stem plus suffix) is empty or the special name `.`. -/
def pyWithStem (p : PyPath) (newStem : String) : Option PyPath :=
  if newStem ++ p.suffix = "" ∨ newStem ++ p.suffix = "." then none
  else some { p with stem := newStem }

/-- Embedding of `remove_shape_suffix`: rewrite the stem with the regex
substitution and rebuild the path with `Path.with_stem`; `none` models
the `ValueError` escaping the function. -/
def remove_shape_suffix (w : Char → Bool) (p : PyPath) : Option PyPath :=
  pyWithStem p (String.mk (stripShapePattern w p.stem.data))

/-- Claim-side predicate: the stem ends in a hyphen followed by exactly
one word character. -/
def stemEndsHyphenWord (w : Char → Bool) (s : String) : Bool :=
  match s.data.reverse with
  | c :: '-' :: _ => w c
  | _ => false

/-- Claim-side predicate for the amendment: the stem ends in a hyphen,
a word character and then a final newline. -/
def stemEndsHyphenWordNewline (w : Char → Bool) (s : String) : Bool :=
  match s.data.reverse with
  | '\n' :: c :: '-' :: _ => w c
  | _ => false

/-- Helper: a list whose reverse starts with `c, d` is its remainder
followed by `d` then `c`. -/
lemma eq_concat2_of_reverse {s rest : List Char} {c d : Char}
    (h : s.reverse = c :: d :: rest) : s = (rest.reverse ++ [d]) ++ [c] := by
  have h2 := congrArg List.reverse h
  simpa [List.append_assoc] using h2

/-- Helper: a list whose reverse starts with `a, b, c` is its remainder
followed by `c`, `b`, `a`. -/
lemma eq_concat3_of_reverse {s rest : List Char} {a b c : Char}
    (h : s.reverse = a :: b :: c :: rest) :
    s = ((rest.reverse ++ [c]) ++ [b]) ++ [a] := by
  have h2 := congrArg List.reverse h
  simpa [List.append_assoc] using h2

/-- A file name containing a newline is neither empty nor `.`, so the
newline branch of the substitution can never raise in `with_stem`. -/
lemma newline_name_ok (l : List Char) (sfx : String) :
    ¬(String.mk (l ++ ['\n']) ++ sfx = ""
      ∨ String.mk (l ++ ['\n']) ++ sfx = ".") := by
  intro h
  cases sfx with
  | mk sd =>
    rcases h with h | h
    · have h2 : (l ++ ['\n']) ++ sd = [] := congrArg String.data h
      simp at h2
    · have h2 : (l ++ ['\n']) ++ sd = ['.'] := congrArg String.data h
      have hmem : '\n' ∈ (l ++ ['\n']) ++ sd := by simp
      rw [h2] at hmem
      simp at hmem

/-- C4 (amended): when the stem ends in a hyphen followed by one word
character, `remove_shape_suffix` drops those two characters from the
stem, keeping directory and suffix — unless the resulting file name is
empty or `.`, in which case `with_stem` raises `ValueError`; when the
stem ends in hyphen, word character, then a final newline, the hyphen
and word character are removed (Python's `$` also matches before a
terminal newline, and the retained newline keeps the name valid); every
other path is returned unchanged, with the same `ValueError` whenever
the unchanged file name is empty or `.`. -/
theorem remove_shape_suffix_spec (w : Char → Bool) (p : PyPath)
    (hdash : w '-' = false) :
    (stemEndsHyphenWord w p.stem = true →
      remove_shape_suffix w p =
        if String.mk p.stem.data.dropLast.dropLast ++ p.suffix = ""
            ∨ String.mk p.stem.data.dropLast.dropLast ++ p.suffix = "."
        then none
        else some { p with stem := String.mk p.stem.data.dropLast.dropLast })
    ∧ (stemEndsHyphenWordNewline w p.stem = true →
      remove_shape_suffix w p =
        some { p with stem := String.mk (p.stem.data.dropLast.dropLast.dropLast ++ ['\n']) })
    ∧ (stemEndsHyphenWord w p.stem = false →
        stemEndsHyphenWordNewline w p.stem = false →
      remove_shape_suffix w p =
        if p.stem ++ p.suffix = "" ∨ p.stem ++ p.suffix = "."
        then none
        else some p) := by
  refine ⟨?_, ?_, ?_⟩
  · intro h
    unfold stemEndsHyphenWord at h
    split at h
    · rename_i c rest heq
      unfold remove_shape_suffix stripShapePattern
      rw [heq]
      split
      · rename_i c2 rest2 heq2
        cases heq2
        rw [eq_concat2_of_reverse heq, List.dropLast_concat, List.dropLast_concat]
        simp only [h, if_true]
        rfl
      · rename_i hne heq2
        cases heq2
        exact absurd rfl hne
      · rename_i hne1 hne2
        exact (hne1 c rest rfl).elim
    · simp at h
  · intro h
    unfold stemEndsHyphenWordNewline at h
    split at h
    · rename_i c rest heq
      unfold remove_shape_suffix stripShapePattern
      rw [heq]
      split
      · rename_i c2 rest2 heq2
        cases heq2
        rw [h] at hdash
        cases hdash
      · rename_i hne heq2
        cases heq2
        rw [eq_concat3_of_reverse heq, List.dropLast_concat, List.dropLast_concat,
          List.dropLast_concat]
        simp only [h, if_true, List.concat_eq_append]
        unfold pyWithStem
        rw [if_neg (newline_name_ok rest.reverse p.suffix)]
      · rename_i hne1 hne2
        exact (hne2 c rest rfl).elim
    · simp at h
  · intro h1 h2
    unfold stemEndsHyphenWord at h1
    unfold stemEndsHyphenWordNewline at h2
    unfold remove_shape_suffix stripShapePattern
    split
    · rename_i c rest heq
      rw [heq] at h1
      simp at h1
      simp [h1]
      rfl
    · rename_i c rest hne heq
      rw [heq] at h2
      simp at h2
      simp [h2]
      rfl
    · rfl

/-- C4 counterexample, on all-ASCII inputs where `asciiWordChar` agrees
with Python's `\w`: the stem `"a-m\n"` does not end in a hyphen
followed by a word character, yet the path is changed (the `$` anchor
also matches before the trailing newline); and the suffix-less path
`"-m"`, whose stem does match, does not come back with the suffix
stripped — `with_stem("")` raises `ValueError` instead. -/
theorem remove_shape_suffix_counterexample :
    stemEndsHyphenWord asciiWordChar "a-m\n" = false
    ∧ remove_shape_suffix asciiWordChar ⟨"models", "a-m\n", ".glb"⟩
        = some ⟨"models", "a\n", ".glb"⟩
    ∧ remove_shape_suffix asciiWordChar ⟨"models", "a-m\n", ".glb"⟩
        ≠ some ⟨"models", "a-m\n", ".glb"⟩
    ∧ stemEndsHyphenWord asciiWordChar "-m" = true
    ∧ remove_shape_suffix asciiWordChar ⟨"", "-m", ""⟩ = none := by
  decide

/-- Witness for C4 (amended) at the stem `"avatar-f"`, instantiating
the word class at its ASCII restriction. -/
theorem remove_shape_suffix_spec_witness :
    stemEndsHyphenWord asciiWordChar "avatar-f" = true
    ∧ remove_shape_suffix asciiWordChar ⟨"models", "avatar-f", ".glb"⟩
        = some ⟨"models", "avatar", ".glb"⟩ := by
  refine ⟨by decide, ?_⟩
  have h := (remove_shape_suffix_spec asciiWordChar
    ⟨"models", "avatar-f", ".glb"⟩ (by decide)).1 (by decide)
  rw [h]
  decide

/-! ### Colour conversion (`srgb_to_linear`, `hex_to_rgb` in
`pyblend/util.py`).  Strings are modelled as lists of characters and
Python floats as real numbers. -/

/-- Value of a single hexadecimal digit, `none` for any other
character. -/
def hexDigitValue (c : Char) : Option Nat :=
  if '0' ≤ c ∧ c ≤ '9' then some (c.toNat - '0'.toNat)
  else if 'a' ≤ c ∧ c ≤ 'f' then some (c.toNat - 'a'.toNat + 10)
  else if 'A' ≤ c ∧ c ≤ 'F' then some (c.toNat - 'A'.toNat + 10)
  else none

/-- The character is a hexadecimal digit. -/
def isHexDigitChar (c : Char) : Bool :=
  (hexDigitValue c).isSome

/-- Accumulating base-16 evaluation of a digit string, failing on the
first non-digit. -/
def hexDigitsAux (acc : Nat) : List Char → Option Nat
  | [] => some acc
  | c :: rest =>
      match hexDigitValue c with
      | none => none
      | some v => hexDigitsAux (16 * acc + v) rest

/-- Base-16 value of a non-empty digit string; `none` on the empty
string or a non-digit, as `int("", 16)` raises `ValueError`. -/
def hexDigitsValue (s : List Char) : Option Nat :=
  match s with
  | [] => none
  | _ => hexDigitsAux 0 s

/-- Model of Python `int(s, 16)` on strings made of an optional sign
followed by hexadecimal digits (the only shapes reachable from
`hex_to_rgb`, whose slices come from the input colour string). -/
def pyIntHex (s : List Char) : Option Int :=
  if s.head? = some '-' then (hexDigitsValue (s.drop 1)).map (fun n => -(n : Int))
  else if s.head? = some '+' then (hexDigitsValue (s.drop 1)).map (fun n => (n : Int))
  else (hexDigitsValue s).map (fun n => (n : Int))

/-- Model of the Python slice `s[i:j]` (never out of bounds, possibly
short). -/
def pySlice (s : List Char) (i j : Nat) : List Char :=
  (s.take j).drop i

/-- Embedding of the first half of `hex_to_rgb`: strip leading `#`
characters (`lstrip("#")`) and parse the three two-character slices at
0, 2 and 4 as base-16 integers; any failure propagates as `none`. -/
def hex_to_rgb_ints (s : List Char) : Option (Int × Int × Int) :=
  let t := s.dropWhile (· = '#')
  match pyIntHex (pySlice t 0 2), pyIntHex (pySlice t 2 4), pyIntHex (pySlice t 4 6) with
  | some r, some g, some b => some (r, g, b)
  | _, _, _ => none

/-- Embedding of `srgb_to_linear`:
`v / 12.92 if v <= 0.04045 else ((v + 0.055) / 1.055) ** 2.4`. -/
noncomputable def srgb_to_linear (v : ℝ) : ℝ :=
  if v ≤ 0.04045 then v / 12.92 else ((v + 0.055) / 1.055) ^ (2.4 : ℝ)

/-- Embedding of `hex_to_rgb`: normalise each parsed channel by 255 and
convert it to linear RGB. -/
noncomputable def hex_to_rgb (s : List Char) : Option (ℝ × ℝ × ℝ) :=
  (hex_to_rgb_ints s).map fun t =>
    (srgb_to_linear ((t.1 : ℝ) / 255),
     srgb_to_linear ((t.2.1 : ℝ) / 255),
     srgb_to_linear ((t.2.2 : ℝ) / 255))

/-- Claim-side value of the pair of hexadecimal digits of `d` at
positions `i`, `i + 1`, read as one base-16 integer. -/
def hexPairValue (d : List Char) (i : Nat) : Nat :=
  16 * (hexDigitValue (d.getD i '0')).getD 0
    + (hexDigitValue (d.getD (i + 1) '0')).getD 0

/-- Parsing a two-digit slice with `int(s, 16)` yields the base-16
value of the pair. -/
lemma pyIntHex_pair {a b : Char} (ha : isHexDigitChar a = true)
    (hb : isHexDigitChar b = true) :
    pyIntHex [a, b] = some ((16 * (hexDigitValue a).getD 0
      + (hexDigitValue b).getD 0 : Nat) : Int) := by
  obtain ⟨va, hva⟩ := Option.isSome_iff_exists.mp ha
  obtain ⟨vb, hvb⟩ := Option.isSome_iff_exists.mp hb
  have hna : a ≠ '-' := by
    intro h; rw [h] at hva; simp [hexDigitValue] at hva
  have hpa : a ≠ '+' := by
    intro h; rw [h] at hva; simp [hexDigitValue] at hva
  unfold pyIntHex
  rw [if_neg (by simp [hna]), if_neg (by simp [hpa])]
  simp [hexDigitsValue, hexDigitsAux, hva, hvb]

/-- C3: on a string of six hexadecimal digits, optionally preceded by
`#`, `hex_to_rgb` returns exactly the triple of channel values obtained
by parsing consecutive digit pairs base-16, dividing by 255 and applying
`srgb_to_linear`. -/
theorem hex_to_rgb_spec (d s : List Char)
    (hform : s = d ∨ s = '#' :: d)
    (hlen : d.length = 6)
    (hdig : ∀ c ∈ d, isHexDigitChar c = true) :
    hex_to_rgb s = some
      (srgb_to_linear ((hexPairValue d 0 : ℝ) / 255),
       srgb_to_linear ((hexPairValue d 2 : ℝ) / 255),
       srgb_to_linear ((hexPairValue d 4 : ℝ) / 255)) := by
  rcases d with _ | ⟨d0, _ | ⟨d1, _ | ⟨d2, _ | ⟨d3, _ | ⟨d4, _ | ⟨d5, rest⟩⟩⟩⟩⟩⟩ <;>
    simp only [List.length] at hlen <;> try omega
  have hrest : rest = [] := by
    simpa using hlen
  subst hrest
  have h0 := hdig d0 (by simp)
  have h1 := hdig d1 (by simp)
  have h2 := hdig d2 (by simp)
  have h3 := hdig d3 (by simp)
  have h4 := hdig d4 (by simp)
  have h5 := hdig d5 (by simp)
  have hd0 : d0 ≠ '#' := by
    intro h
    rw [h] at h0
    simp [isHexDigitChar, hexDigitValue] at h0
  have hdrop : s.dropWhile (· = '#') = [d0, d1, d2, d3, d4, d5] := by
    rcases hform with rfl | rfl
    · simp [List.dropWhile_cons, hd0]
    · simp [List.dropWhile_cons, hd0]
  have hints : hex_to_rgb_ints s = some
      ((hexPairValue [d0, d1, d2, d3, d4, d5] 0 : Int),
       (hexPairValue [d0, d1, d2, d3, d4, d5] 2 : Int),
       (hexPairValue [d0, d1, d2, d3, d4, d5] 4 : Int)) := by
    simp only [hex_to_rgb_ints, hdrop]
    have e1 : pySlice [d0, d1, d2, d3, d4, d5] 0 2 = [d0, d1] := rfl
    have e2 : pySlice [d0, d1, d2, d3, d4, d5] 2 4 = [d2, d3] := rfl
    have e3 : pySlice [d0, d1, d2, d3, d4, d5] 4 6 = [d4, d5] := rfl
    rw [e1, e2, e3, pyIntHex_pair h0 h1, pyIntHex_pair h2 h3, pyIntHex_pair h4 h5]
    simp [hexPairValue]
  unfold hex_to_rgb
  rw [hints]
  simp only [Option.map_some']
  push_cast
  rfl

/-- Witness for C3 at the colour string `"#336699"`. -/
theorem hex_to_rgb_spec_witness :
    "336699".data.length = 6
    ∧ (∀ c ∈ "336699".data, isHexDigitChar c = true)
    ∧ hexPairValue "336699".data 0 = 51
    ∧ hex_to_rgb "#336699".data = some
        (srgb_to_linear ((hexPairValue "336699".data 0 : ℝ) / 255),
         srgb_to_linear ((hexPairValue "336699".data 2 : ℝ) / 255),
         srgb_to_linear ((hexPairValue "336699".data 4 : ℝ) / 255)) :=
  ⟨by decide, by decide, by decide,
   hex_to_rgb_spec "336699".data "#336699".data (Or.inr (by decide))
     (by decide) (by decide)⟩

/-! ### Export wrappers (`pyblend/file_io/fbx.py`,
`pyblend/file_io/gltf.py`).  The host exporter (the FBX add-on's `save`
or the glTF export operator) is modelled by the outcome it would
produce when invoked: finishing, reporting `{'CANCELLED'}`, or raising
`IOError`; the wrappers catch the `IOError` locally. -/

/-- Outcome of invoking the underlying host exporter. -/
inductive ExportOutcome
  | finished
  | cancelled
  | ioError (msg : String)
deriving DecidableEq

/-- Embedding of `export_fbx`: reject filepaths that do not end in
`.fbx` case-insensitively, then map the exporter's outcome to a
`(success, message)` pair, catching `IOError`. -/
def export_fbx (save : ExportOutcome) (filepath : String) : Bool × String :=
  if ¬ filepath.toLower.endsWith ".fbx" then
    (false, "Destination file is not an FBX file: " ++ filepath)
  else
    match save with
    | ExportOutcome.cancelled => (false, "Failed to write file: " ++ filepath)
    | ExportOutcome.ioError e =>
        (false, "Failed to write file: " ++ filepath ++ "\n" ++ e)
    | ExportOutcome.finished => (true, "Saved file: " ++ filepath)

/-- Embedding of `export_gltf`: reject filepaths ending neither in
`.glb` nor `.gltf` case-insensitively, then map the export operator's
outcome to a `(success, message)` pair, catching `IOError`. -/
def export_gltf (op : ExportOutcome) (filepath : String) : Bool × String :=
  if ¬ (filepath.toLower.endsWith ".glb" || filepath.toLower.endsWith ".gltf") then
    (false, "Destination file is not a glTF file: " ++ filepath)
  else
    match op with
    | ExportOutcome.cancelled => (false, "Failed to write file: " ++ filepath)
    | ExportOutcome.ioError e => (false, "Failed to write file.\n" ++ e)
    | ExportOutcome.finished => (true, "Saved file: " ++ filepath)

/-- C2: each export wrapper returns success `false` exactly when the
filepath lacks the format's extension (case-insensitively), the
exporter reports cancellation, or the exporter raises `IOError`; in
every other case success is `true`. -/
theorem export_wrappers_success_iff (o : ExportOutcome) (fp : String) :
    ((export_fbx o fp).1 = false ↔
      (¬ fp.toLower.endsWith ".fbx" = true ∨ o = ExportOutcome.cancelled
        ∨ ∃ m, o = ExportOutcome.ioError m))
    ∧ ((export_gltf o fp).1 = false ↔
      (¬ (fp.toLower.endsWith ".glb" || fp.toLower.endsWith ".gltf") = true
        ∨ o = ExportOutcome.cancelled ∨ ∃ m, o = ExportOutcome.ioError m)) := by
  refine ⟨?_, ?_⟩
  · unfold export_fbx
    split
    · rename_i h
      simp [h]
    · rename_i h
      cases o <;> simp [h]
  · unfold export_gltf
    split
    · rename_i h
      simp [h]
    · rename_i h
      rw [not_not] at h
      cases o <;> simp [h]

/-! ### Armature attachment (`pyblend/armature.py`).  Objects carry a
type string, an optional parent (by name), a modifier stack and a flag
saying whether their type supports modifiers (`modifiers.new` yields
`None` otherwise, as the source comments note). -/

/-- A Blender modifier: its name, type and pointed-to object. -/
structure BModifier where
  name : String
  type : String
  object : Option String
deriving DecidableEq

/-- A Blender object as seen by `armature.py`. -/
structure BObj where
  name : String
  type : String
  parent : Option String
  modifiers : List BModifier
  supportsModifiers : Bool
deriving DecidableEq

/-- Apply `f` to the element at index `i`, if any. -/
def modifyAt {α : Type} : List α → Nat → (α → α) → List α
  | [], _, _ => []
  | a :: rest, 0, f => f a :: rest
  | a :: rest, i + 1, f => a :: modifyAt rest i f

/-- Embedding of `get_first_armature_modifier`, as the index of the
first modifier of type `ARMATURE`. -/
def get_first_armature_modifier (o : BObj) : Option Nat :=
  o.modifiers.findIdx? (fun m => m.type = "ARMATURE")

/-- Embedding of `set_armature`: fail (leaving the object untouched)
when the armature is not of type `ARMATURE` or when the object has no
armature modifier and supports none; otherwise parent the object to the
armature and update or append an `Armature` modifier pointing at it. -/
def set_armature (obj armature : BObj) : Bool × BObj :=
  if armature.type ≠ "ARMATURE" then (false, obj)
  else
    match get_first_armature_modifier obj with
    | some i =>
        (true, { obj with
          parent := some armature.name,
          modifiers := modifyAt obj.modifiers i
            (fun m => { m with object := some armature.name, name := "Armature" }) })
    | none =>
        if obj.supportsModifiers then
          (true, { obj with
            parent := some armature.name,
            modifiers := obj.modifiers
              ++ [⟨"Armature", "ARMATURE", some armature.name⟩] })
        else (false, obj)

/-- Embedding of `set_armature_on_objects`: walk the whole list,
skipping objects of type `ARMATURE`, and conjoin (`success &=`) the
individual results. -/
def set_armature_on_objects : List BObj → BObj → Bool × List BObj
  | [], _ => (true, [])
  | o :: rest, armature =>
      if o.type = "ARMATURE" then
        let r := set_armature_on_objects rest armature
        (r.1, o :: r.2)
      else
        let s := set_armature o armature
        let r := set_armature_on_objects rest armature
        (s.1 && r.1, s.2 :: r.2)

/-- C6: `set_armature_on_objects` skips `ARMATURE` objects, processes
every other object even after failures, and succeeds exactly when
`set_armature` succeeds on every non-armature object (so an
armature-only list yields `true`); `set_armature` with a non-armature
parent returns `false` and leaves the object unchanged. -/
theorem set_armature_on_objects_spec (objs : List BObj) (arm : BObj) :
    set_armature_on_objects objs arm
      = (objs.all (fun o => o.type = "ARMATURE" || (set_armature o arm).1),
         objs.map (fun o => if o.type = "ARMATURE" then o else (set_armature o arm).2))
    ∧ (∀ o : BObj, arm.type ≠ "ARMATURE" →
        set_armature o arm = (false, o)) := by
  constructor
  · induction objs with
    | nil => rfl
    | cons o rest ih =>
      by_cases h : o.type = "ARMATURE"
      · simp [set_armature_on_objects, h, ih]
      · simp [set_armature_on_objects, h, ih]
  · intro o hna
    unfold set_armature
    rw [if_pos hna]

/-- Example objects for the armature witnesses. -/
def exampleArmature : BObj := ⟨"rig", "ARMATURE", none, [], false⟩

/-- Example mesh object for the armature witnesses. -/
def exampleMesh : BObj := ⟨"body", "MESH", none, [], true⟩

/-- Example non-armature parent for the armature witnesses. -/
def exampleEmpty : BObj := ⟨"helper", "EMPTY", none, [], true⟩

/-- Witness for C6: attaching to a non-armature fails without touching
the object, and a list holding only an armature succeeds. -/
theorem set_armature_on_objects_spec_witness :
    set_armature exampleMesh exampleEmpty = (false, exampleMesh)
    ∧ (set_armature_on_objects [exampleArmature] exampleArmature).1 = true :=
  ⟨(set_armature_on_objects_spec [] exampleEmpty).2 exampleMesh (by decide),
   by rw [(set_armature_on_objects_spec [exampleArmature] exampleArmature).1]; decide⟩

/-! ### Modifier-stack reordering (`move_modifier_to_top` in
`pyblend/object.py`).  The modifier stack is modelled by the list of
modifier names; `bpy.ops.object.modifier_move_up` swaps the named
modifier with its predecessor, and `modifiers.find` returns the index
of a name (modelled by an `Option`, `none` standing for Python's -1,
which cannot occur under the function's own `KeyError` guard). -/

/-- One application of `modifier_move_up`: move the first occurrence of
`n` one slot towards the front; a no-op when `n` heads the list. -/
def modMoveUp : List String → String → List String
  | [], _ => []
  | [a], _ => [a]
  | a :: b :: rest, n =>
      if a = n then a :: b :: rest
      else if b = n then b :: a :: rest
      else a :: modMoveUp (b :: rest) n

/-- Model of `modifiers.find`: index of the first occurrence of `n`. -/
def modFindIdx : List String → String → Option Nat
  | [], _ => none
  | a :: rest, n => if a = n then some 0 else (modFindIdx rest n).map (· + 1)

/-- One iteration of the `while` loop body, as a guarded step: when the
modifier is not yet at index 0, move it up, otherwise leave the stack
as it is (the loop has exited). -/
def moveUpStep (n : String) (l : List String) : List String :=
  if modFindIdx l n = some 0 then l else modMoveUp l n

/-- The `while obj.modifiers.find(mod.name) != 0` loop, run with
explicit fuel. -/
def moveLoop : Nat → List String → String → List String
  | 0, l, _ => l
  | fuel + 1, l, n =>
      if modFindIdx l n = some 0 then l else moveLoop fuel (modMoveUp l n) n

/-- Embedding of `move_modifier_to_top`: return unchanged on a missing
name (the caught `KeyError`), otherwise run the loop; `l.length` fuel
is enough, as proved below. -/
def move_modifier_to_top (l : List String) (n : String) : List String :=
  if modFindIdx l n = none then l else moveLoop l.length l n

/-- Each `modifier_move_up` strictly decreases the index of the named
modifier while it is positive. -/
lemma modFindIdx_moveUp (l : List String) (n : String) (k : Nat)
    (h : modFindIdx l n = some (k + 1)) :
    modFindIdx (modMoveUp l n) n = some k := by
  induction l generalizing k with
  | nil => simp [modFindIdx] at h
  | cons a rest ih =>
    match rest with
    | [] =>
      by_cases ha : a = n
      · simp [modFindIdx, ha] at h
      · simp [modFindIdx, ha] at h
    | b :: rest2 =>
      by_cases ha : a = n
      · simp [modFindIdx, ha] at h
      · by_cases hb : b = n
        · simp [modFindIdx, ha, hb] at h
          simp [modMoveUp, ha, hb, modFindIdx]
          omega
        · simp [modFindIdx, ha, hb] at h
          obtain ⟨j, hj, hjk⟩ := h
          have hb2 : modFindIdx (b :: rest2) n = some (j + 1) := by
            simp [modFindIdx, hb, hj]
          have hih := ih j hb2
          simp [modMoveUp, ha, hb, modFindIdx, hih]
          omega

/-- The index returned by `modifiers.find` is within the stack. -/
lemma modFindIdx_lt_length (l : List String) (n : String) (k : Nat)
    (h : modFindIdx l n = some k) : k < l.length := by
  induction l generalizing k with
  | nil => simp [modFindIdx] at h
  | cons a rest ih =>
    by_cases ha : a = n
    · simp [modFindIdx, ha] at h
      simp only [List.length_cons]
      omega
    · simp [modFindIdx, ha] at h
      obtain ⟨j, hj, hjk⟩ := h
      have := ih j hj
      simp only [List.length_cons]
      omega

/-- With at least as much fuel as the starting index, the loop brings
the named modifier to index 0. -/
lemma moveLoop_reaches_top (n : String) :
    ∀ fuel l k, modFindIdx l n = some k → k ≤ fuel →
      modFindIdx (moveLoop fuel l n) n = some 0 := by
  intro fuel
  induction fuel with
  | zero =>
    intro l k h hk
    have : k = 0 := by omega
    subst this
    simpa [moveLoop] using h
  | succ fuel ih =>
    intro l k h hk
    unfold moveLoop
    by_cases h0 : modFindIdx l n = some 0
    · rw [if_pos h0]
      exact h0
    · rw [if_neg h0]
      have hkpos : k ≠ 0 := by
        intro hz
        subst hz
        exact h0 h
      obtain ⟨k2, rfl⟩ : ∃ k2, k = k2 + 1 := ⟨k - 1, by omega⟩
      exact ih (modMoveUp l n) k2 (modFindIdx_moveUp l n k2 h) (by omega)

/-- Once the modifier heads the stack, the loop step is the identity. -/
lemma iterate_fixed_of_top (n : String) (l : List String)
    (h : modFindIdx l n = some 0) :
    ∀ m, (moveUpStep n)^[m] l = l := by
  intro m
  induction m with
  | zero => rfl
  | succ m ih =>
    rw [Function.iterate_succ_apply, moveUpStep, if_pos h, ih]

/-- The fuelled loop is the iterate of the guarded step. -/
lemma moveLoop_eq_iterate (n : String) :
    ∀ fuel l, moveLoop fuel l n = (moveUpStep n)^[fuel] l := by
  intro fuel
  induction fuel with
  | zero => intro l; rfl
  | succ fuel ih =>
    intro l
    unfold moveLoop
    rw [Function.iterate_succ_apply]
    by_cases h0 : modFindIdx l n = some 0
    · rw [if_pos h0, moveUpStep, if_pos h0, iterate_fixed_of_top n l h0]
    · rw [if_neg h0, moveUpStep, if_neg h0, ih]

/-- C7: the `while` loop of `move_modifier_to_top` terminates on every
stack: on a missing name the function returns at once, and on a present
name the loop's guarded step reaches a state with the modifier at index
0 (the loop guard false) within `l.length` iterations, which is what
the function computes. -/
theorem move_modifier_to_top_terminates (l : List String) (nm : String) :
    (modFindIdx l nm = none → move_modifier_to_top l nm = l)
    ∧ (∀ k, modFindIdx l nm = some k →
        modFindIdx (move_modifier_to_top l nm) nm = some 0
        ∧ move_modifier_to_top l nm = (moveUpStep nm)^[l.length] l) := by
  constructor
  · intro h
    unfold move_modifier_to_top
    rw [if_pos h]
  · intro k h
    have hne : modFindIdx l nm ≠ none := by simp [h]
    constructor
    · unfold move_modifier_to_top
      rw [if_neg hne]
      exact moveLoop_reaches_top nm l.length l k h
        (le_of_lt (modFindIdx_lt_length l nm k h))
    · unfold move_modifier_to_top
      rw [if_neg hne]
      exact moveLoop_eq_iterate nm l.length l

/-- Witness for C7 on a three-modifier stack with `Armature` in the
middle. -/
theorem move_modifier_to_top_terminates_witness :
    modFindIdx ["Subdivision", "Armature", "Mirror"] "Armature" = some 1
    ∧ modFindIdx
        (move_modifier_to_top ["Subdivision", "Armature", "Mirror"] "Armature")
        "Armature" = some 0
    ∧ move_modifier_to_top ["Subdivision", "Armature", "Mirror"] "Armature"
        = ["Armature", "Subdivision", "Mirror"] :=
  ⟨by decide,
   ((move_modifier_to_top_terminates ["Subdivision", "Armature", "Mirror"]
      "Armature").2 1 (by decide)).1,
   by decide⟩

/-! ### Shape keys (`pyblend/shapekeys.py`).  A shape key carries a
name, a float weight (`value`, modelled by `ℚ`) and per-vertex position
data; a shape-keys data-block carries its own name and the list
`key_blocks`, whose first element is the basis key. -/

/-- A shape key (`bpy.types.ShapeKey`). -/
structure SKey where
  name : String
  value : ℚ
  data : List (ℤ × ℤ × ℤ)
deriving DecidableEq

/-- A shape-keys data-block (`bpy.types.Key`): its name and its key
blocks. -/
structure KeyBlocks where
  name : String
  key_blocks : List SKey
deriving DecidableEq

/-- A mesh as seen by `set_exclusive_shape_weight`: `mesh.shape_keys`
is `None` when the mesh has no shape keys. -/
structure PMesh where
  name : String
  shape_keys : Option KeyBlocks
deriving DecidableEq

/-- Assignment `key_blocks[key].value = w`: set the value of the first
block with the given name. -/
def setFirstNamed : List SKey → String → ℚ → List SKey
  | [], _, _ => []
  | k :: rest, key, w =>
      if k.name = key then { k with value := w } :: rest
      else k :: setFirstNamed rest key w

/-- Lookup `key_blocks[key]` succeeds (no `KeyError`). -/
def hasKeyNamed (l : List SKey) (key : String) : Bool :=
  l.any (fun k => k.name = key)

/-- Embedding of `set_exclusive_shape_weight`: bail out (printing) when
the mesh has no shape keys (`AttributeError`) or the key name is absent
(`KeyError`); otherwise zero every block's value and set the named
block's value to the given weight. -/
def set_exclusive_shape_weight (mesh : PMesh) (key : String) (weight : ℚ) : PMesh :=
  match mesh.shape_keys with
  | none => mesh
  | some kb =>
      if hasKeyNamed kb.key_blocks key then
        { mesh with shape_keys := some { kb with
            key_blocks := setFirstNamed
              (kb.key_blocks.map fun k => { k with value := 0 }) key weight } }
      else mesh

/-- After zeroing and setting the named block, names are unchanged, the
named block's value is the given weight, and every differently named
block's value is 0. -/
lemma setFirstNamed_zeroed_spec (l : List SKey) (key : String) (w : ℚ)
    (h : hasKeyNamed l key = true) :
    (setFirstNamed (l.map fun k => { k with value := 0 }) key w).map (fun k => k.name)
        = l.map (fun k => k.name)
    ∧ ((setFirstNamed (l.map fun k => { k with value := 0 }) key w).find?
        (fun k => k.name = key)).map (fun k => k.value) = some w
    ∧ ∀ b ∈ setFirstNamed (l.map fun k => { k with value := 0 }) key w,
        b.name ≠ key → b.value = 0 := by
  induction l with
  | nil => simp [hasKeyNamed] at h
  | cons k rest ih =>
    by_cases hk : k.name = key
    · refine ⟨?_, ?_, ?_⟩
      · simp [setFirstNamed, hk]
      · simp [setFirstNamed, hk, List.find?]
      · intro b hb hbn
        simp [setFirstNamed, hk] at hb
        rcases hb with rfl | hb
        · simp at hbn
        · obtain ⟨a, ha, rfl⟩ := hb
          rfl
    · have h2 : hasKeyNamed rest key = true := by
        simp [hasKeyNamed] at h ⊢
        rcases h with h | h
        · exact absurd h hk
        · exact h
      obtain ⟨ih1, ih2, ih3⟩ := ih h2
      refine ⟨?_, ?_, ?_⟩
      · simp [setFirstNamed, hk, ih1]
      · simp [setFirstNamed, hk, List.find?, ih2]
      · intro b hb hbn
        simp [setFirstNamed, hk] at hb
        rcases hb with rfl | hb
        · rfl
        · exact ih3 b hb hbn

/-- C10: `set_exclusive_shape_weight` leaves the mesh untouched when it
has no shape keys or the named key is absent; otherwise the named key's
weight becomes the given weight and every other key's weight becomes 0,
with key names unchanged. -/
theorem set_exclusive_shape_weight_spec (mesh : PMesh) (key : String) (w : ℚ) :
    (mesh.shape_keys = none → set_exclusive_shape_weight mesh key w = mesh)
    ∧ (∀ kb, mesh.shape_keys = some kb → hasKeyNamed kb.key_blocks key = false →
        set_exclusive_shape_weight mesh key w = mesh)
    ∧ (∀ kb, mesh.shape_keys = some kb → hasKeyNamed kb.key_blocks key = true →
        ∃ kb', (set_exclusive_shape_weight mesh key w).shape_keys = some kb'
          ∧ kb'.key_blocks.map (fun k => k.name)
              = kb.key_blocks.map (fun k => k.name)
          ∧ (kb'.key_blocks.find? (fun k => k.name = key)).map (fun k => k.value)
              = some w
          ∧ ∀ b ∈ kb'.key_blocks, b.name ≠ key → b.value = 0) := by
  refine ⟨?_, ?_, ?_⟩
  · intro h
    unfold set_exclusive_shape_weight
    rw [h]
  · intro kb hkb hno
    unfold set_exclusive_shape_weight
    rw [hkb]
    simp [hno]
  · intro kb hkb hyes
    unfold set_exclusive_shape_weight
    rw [hkb]
    simp only [hyes, if_true]
    obtain ⟨h1, h2, h3⟩ := setFirstNamed_zeroed_spec kb.key_blocks key w hyes
    exact ⟨_, rfl, h1, h2, h3⟩

/-- Example mesh with three shape keys and nonzero weights. -/
def exampleMeshKeys : PMesh :=
  ⟨"face", some ⟨"Key",
    [⟨"Basis", 1, []⟩, ⟨"Smile", (1 : ℚ)/2, []⟩, ⟨"Frown", 1, []⟩]⟩⟩

/-- Witness for C10 on `exampleMeshKeys`, making `Smile` exclusive. -/
theorem set_exclusive_shape_weight_spec_witness :
    hasKeyNamed [⟨"Basis", 1, []⟩, ⟨"Smile", (1 : ℚ)/2, []⟩, ⟨"Frown", 1, []⟩]
        "Smile" = true
    ∧ ∃ kb', (set_exclusive_shape_weight exampleMeshKeys "Smile" 1).shape_keys
          = some kb'
        ∧ kb'.key_blocks.map (fun k => k.name) = ["Basis", "Smile", "Frown"]
        ∧ (kb'.key_blocks.find? (fun k => k.name = "Smile")).map (fun k => k.value)
            = some 1
        ∧ ∀ b ∈ kb'.key_blocks, b.name ≠ "Smile" → b.value = 0 := by
  refine ⟨by decide, ?_⟩
  obtain ⟨kb', ha, hb, hc, hd⟩ :=
    (set_exclusive_shape_weight_spec exampleMeshKeys "Smile" 1).2.2
      ⟨"Key", [⟨"Basis", 1, []⟩, ⟨"Smile", (1 : ℚ)/2, []⟩, ⟨"Frown", 1, []⟩]⟩
      rfl (by decide)
  exact ⟨kb', ha, hb, hc, hd⟩

/-! ### Shape-key transfer (`transfer_shape_keys` in
`pyblend/shapekeys.py`).  An object is modelled with its base-mesh
vertex positions, optional shape-keys block and active index.  The
host-computed deformation (`get_vertices_positions`, which evaluates
the depsgraph) is a function `ev` from the current source and target
objects to the target's evaluated vertex positions; for a fixed host
scene state this function is fixed. -/

/-- A Blender object as seen by `transfer_shape_keys`. -/
structure MObj where
  name : String
  verts : List (ℤ × ℤ × ℤ)
  shape_keys : Option KeyBlocks
  active_shape_key_index : Nat
deriving DecidableEq

/-- Embedding of `add_shape_key` /
`shape_key_add(name=key_name, from_mix=False)`: append a fresh key with
weight 0 whose data is the object's base vertex positions, creating the
shape-keys block (named `Key` by the host) if needed. -/
def add_shape_key (o : MObj) (keyName : String) : MObj :=
  match o.shape_keys with
  | none => { o with shape_keys := some ⟨"Key", [⟨keyName, 0, o.verts⟩]⟩ }
  | some kb =>
      { o with shape_keys := some { kb with key_blocks := kb.key_blocks ++ [⟨keyName, 0, o.verts⟩] } }

/-- Embedding of `shape_key_clear`: remove every shape key. -/
def shape_key_clear (o : MObj) : MObj :=
  { o with shape_keys := none, active_shape_key_index := 0 }

/-- Embedding of `set_shape_key_data`: store the positions only when
their count matches the key's vertex count, else print and leave the
key as it is. -/
def set_shape_key_data (k : SKey) (data : List (ℤ × ℤ × ℤ)) : SKey :=
  if data.length ≠ k.data.length then k else { k with data := data }

/-- The shape key at index `i` of an object's block (the loop only ever
reads indices inside the stack). -/
def keyAt (o : MObj) (i : Nat) : SKey :=
  match o.shape_keys with
  | none => ⟨"", 0, []⟩
  | some kb => kb.key_blocks.getD i ⟨"", 0, []⟩

/-- Rewrite an object's key-blocks list in place, if it has one. -/
def mapKeyBlocks (o : MObj) (f : List SKey → List SKey) : MObj :=
  match o.shape_keys with
  | none => o
  | some kb => { o with shape_keys := some { kb with key_blocks := f kb.key_blocks } }

/-- Assignment `src_key.value = v` for the key at index `i`. -/
def setKeyValue (o : MObj) (i : Nat) (v : ℚ) : MObj :=
  mapKeyBlocks o (fun l => modifyAt l i (fun k => { k with value := v }))

/-- Store position data into the most recently added key (the
`target_key` reference held by the loop body). -/
def setLastKeyData (o : MObj) (data : List (ℤ × ℤ × ℤ)) : MObj :=
  mapKeyBlocks o (fun l => modifyAt l (l.length - 1) (fun k => set_shape_key_data k data))

/-- Assignment `target.data.shape_keys.name = n`. -/
def setBlockName (o : MObj) (n : String) : MObj :=
  match o.shape_keys with
  | none => o
  | some kb => { o with shape_keys := some { kb with name := n } }

/-- The guard `if keys and src_key.name not in keys: continue`: a key
is processed when `keys` is `None` or empty, or contains its name. -/
def transferFilter (keys : Option (List String)) (n : String) : Bool :=
  match keys with
  | none => true
  | some ks => ks.isEmpty || ks.contains n

/-- One iteration of the transfer loop body on source key `i`: add a
target key with the source key's name, set the source key's weight to
1, read the evaluated target positions, store them into the new key,
and reset the source key's weight to 0. -/
def transferStep (ev : MObj → MObj → List (ℤ × ℤ × ℤ)) (i : Nat)
    (st : MObj × MObj) : MObj × MObj :=
  let t1 := add_shape_key st.2 (keyAt st.1 i).name
  let s1 := setKeyValue st.1 i 1
  let pos := ev s1 t1
  let t2 := setLastKeyData t1 pos
  let s2 := setKeyValue s1 i 0
  (s2, t2)

/-- The `for src_key in src_shape_keys[1:]` loop over the listed source
key indices. -/
def transferLoop (ev : MObj → MObj → List (ℤ × ℤ × ℤ))
    (keys : Option (List String)) : List Nat → MObj × MObj → MObj × MObj
  | [], st => st
  | i :: rest, st =>
      if transferFilter keys (keyAt st.1 i).name then
        transferLoop ev keys rest (transferStep ev i st)
      else transferLoop ev keys rest st

/-- Embedding of `transfer_shape_keys`: bail out when the source mesh
has no shape keys (caught `AttributeError`); otherwise clear the
target's keys, add a fresh basis key named `base_name`, run the loop
over the source keys after the basis (indices 1 and up), rename the
target's shape-keys block to the target's name and reset both active
indices. -/
def transfer_shape_keys (ev : MObj → MObj → List (ℤ × ℤ × ℤ))
    (src target : MObj) (keys : Option (List String)) (base_name : String) :
    MObj × MObj :=
  match src.shape_keys with
  | none => (src, target)
  | some skb =>
      let t0 := add_shape_key (shape_key_clear target) base_name
      let st := transferLoop ev keys
        (List.range' 1 (skb.key_blocks.length - 1)) (src, t0)
      let t2 := setBlockName st.2 st.2.name
      ({ st.1 with active_shape_key_index := 0 },
       { t2 with active_shape_key_index := 0 })

/-- Names of an object's shape keys, in stack order. -/
def keyNames (o : MObj) : List String :=
  match o.shape_keys with
  | none => []
  | some kb => kb.key_blocks.map (fun k => k.name)

/-- Deformation used in concrete examples: the target's base vertex
positions, whatever the weights. -/
def cexEval : MObj → MObj → List (ℤ × ℤ × ℤ) := fun _ t => t.verts

/-- Concrete source object whose basis key is named `Rest`, with one
further key `Smile`. -/
def cexSrc : MObj :=
  ⟨"src", [(0, 0, 0)], some ⟨"Key",
    [⟨"Rest", 0, [(0, 0, 0)]⟩, ⟨"Smile", 0, [(1, 0, 0)]⟩]⟩, 0⟩

/-- Concrete target object without shape keys. -/
def cexTarget : MObj := ⟨"tgt", [(0, 0, 0)], none, 0⟩

/-- C5: on a source without shape keys, `transfer_shape_keys` returns
at once and neither object changes in any way. -/
theorem transfer_shape_keys_no_source_keys
    (ev : MObj → MObj → List (ℤ × ℤ × ℤ)) (src target : MObj)
    (keys : Option (List String)) (bn : String)
    (h : src.shape_keys = none) :
    transfer_shape_keys ev src target keys bn = (src, target) := by
  unfold transfer_shape_keys
  rw [h]

/-- Witness for C5 with `cexTarget` (which has no shape keys) as the
source. -/
theorem transfer_shape_keys_no_source_keys_witness :
    cexTarget.shape_keys = none
    ∧ transfer_shape_keys cexEval cexTarget cexSrc none "Basis"
        = (cexTarget, cexSrc) :=
  ⟨rfl, transfer_shape_keys_no_source_keys cexEval cexTarget cexSrc none "Basis" rfl⟩

/-- The transfer loop of the amended claim C1: for each shape key of
the source except the first (the basis), carried as a list together
with its running stack index, perform the body of the transfer: add a
target key with the same name, set the source key's weight to 1, read
the evaluated target positions, store them, reset the weight to 0. -/
def transferClaimedLoop (ev : MObj → MObj → List (ℤ × ℤ × ℤ)) :
    Nat → List SKey → MObj × MObj → MObj × MObj
  | _, [], st => st
  | i, _ :: rest, st => transferClaimedLoop ev (i + 1) rest (transferStep ev i st)

/-- The amended claim C1, as a function: with `keys=None`,
`transfer_shape_keys` first clears the target's shape keys and adds a
fresh basis key named `base_name`, then runs the body for each
non-basis shape key of the source, renames the target's shape-keys
block after the target, and resets both active indices to 0. -/
def transfer_shape_keys_claimed (ev : MObj → MObj → List (ℤ × ℤ × ℤ))
    (src target : MObj) (bn : String) : MObj × MObj :=
  match src.shape_keys with
  | none => (src, target)
  | some skb =>
      let t0 := add_shape_key (shape_key_clear target) bn
      let st := transferClaimedLoop ev 1 (skb.key_blocks.drop 1) (src, t0)
      let t2 := setBlockName st.2 st.2.name
      ({ st.1 with active_shape_key_index := 0 },
       { t2 with active_shape_key_index := 0 })

/-- With `keys=None` the filter passes every key, so iterating over the
index range is iterating over the non-basis keys themselves. -/
lemma transferLoop_none_eq_claimed (ev : MObj → MObj → List (ℤ × ℤ × ℤ)) :
    ∀ (ks : List SKey) (j : Nat) (st : MObj × MObj),
      transferLoop ev none (List.range' j ks.length) st
        = transferClaimedLoop ev j ks st := by
  intro ks
  induction ks with
  | nil => intro j st; rfl
  | cons k rest ih =>
    intro j st
    rw [List.length_cons, List.range'_succ]
    show transferLoop ev none (j :: List.range' (j + 1) rest.length) st = _
    rw [transferLoop]
    simp only [transferFilter, if_true]
    rw [ih]
    rfl

/-- C1 (amended): with `keys=None`, `transfer_shape_keys` behaves
exactly as `transfer_shape_keys_claimed` describes: clear the target's
keys, add a fresh basis named `base_name`, transfer each source key
after the basis (add target key of the same name, set source weight 1,
read evaluated positions, store them, reset weight 0), rename the
block, reset both active indices. -/
theorem transfer_shape_keys_amended (ev : MObj → MObj → List (ℤ × ℤ × ℤ))
    (src target : MObj) (bn : String) :
    transfer_shape_keys ev src target none bn
      = transfer_shape_keys_claimed ev src target bn := by
  unfold transfer_shape_keys transfer_shape_keys_claimed
  cases h : src.shape_keys with
  | none => rfl
  | some skb =>
    dsimp only
    have h2 := transferLoop_none_eq_claimed ev (skb.key_blocks.drop 1) 1
      (src, add_shape_key (shape_key_clear target) bn)
    rw [List.length_drop] at h2
    rw [h2]

/-- C1 counterexample: the basis shape key of the source (here named
`Rest`) is a shape key of the source, yet no shape key of that name is
stored on the target — the code skips the basis and instead adds a
fresh key named `base_name` (`Basis`), so the claim's "for each shape
key of the source ... stores those positions as a new shape key on the
target with the same name" fails as stated. -/
theorem transfer_shape_keys_counterexample :
    "Rest" ∈ keyNames cexSrc
    ∧ keyNames (transfer_shape_keys cexEval cexSrc cexTarget none "Basis").2
        = ["Basis", "Smile"]
    ∧ ¬ (∀ n ∈ keyNames cexSrc,
          n ∈ keyNames (transfer_shape_keys cexEval cexSrc cexTarget none "Basis").2) := by
  decide

/-- Big-step relation for one run of the transfer loop: at each listed
index the key is either processed (filter passes) or skipped. -/
inductive TransferLoopRel (ev : MObj → MObj → List (ℤ × ℤ × ℤ))
    (keys : Option (List String)) :
    List Nat → MObj × MObj → MObj × MObj → Prop
  | nil (st : MObj × MObj) : TransferLoopRel ev keys [] st st
  | moved {i : Nat} {rest : List Nat} {st out : MObj × MObj} :
      transferFilter keys (keyAt st.1 i).name = true →
      TransferLoopRel ev keys rest (transferStep ev i st) out →
      TransferLoopRel ev keys (i :: rest) st out
  | skipped {i : Nat} {rest : List Nat} {st out : MObj × MObj} :
      transferFilter keys (keyAt st.1 i).name = false →
      TransferLoopRel ev keys rest st out →
      TransferLoopRel ev keys (i :: rest) st out

/-- Big-step relation for a run of `transfer_shape_keys` under a fixed
host deformation `ev` and fixed arguments. -/
inductive TransferRel (ev : MObj → MObj → List (ℤ × ℤ × ℤ))
    (keys : Option (List String)) (bn : String) (src target : MObj) :
    MObj × MObj → Prop
  | no_keys : src.shape_keys = none → TransferRel ev keys bn src target (src, target)
  | run {skb : KeyBlocks} {out : MObj × MObj} :
      src.shape_keys = some skb →
      TransferLoopRel ev keys (List.range' 1 (skb.key_blocks.length - 1))
        (src, add_shape_key (shape_key_clear target) bn) out →
      TransferRel ev keys bn src target
        ({ out.1 with active_shape_key_index := 0 },
         { setBlockName out.2 out.2.name with active_shape_key_index := 0 })

/-- The loop relation is deterministic. -/
lemma transferLoopRel_det {ev : MObj → MObj → List (ℤ × ℤ × ℤ)}
    {keys : Option (List String)} {l : List Nat} {st o1 o2 : MObj × MObj}
    (h1 : TransferLoopRel ev keys l st o1)
    (h2 : TransferLoopRel ev keys l st o2) : o1 = o2 := by
  induction h1 generalizing o2 with
  | nil st =>
    cases h2
    rfl
  | moved hf _ ih =>
    cases h2 with
    | moved hf2 h2t => exact ih h2t
    | skipped hf2 _ => rw [hf] at hf2; cases hf2
  | skipped hf _ ih =>
    cases h2 with
    | moved hf2 _ => rw [hf2] at hf; cases hf
    | skipped _ h2t => exact ih h2t

/-- C8: `transfer_shape_keys` is deterministic — under the same host
deformation and the same arguments, any two runs related by
`TransferRel` end in identical states for both objects (same keys,
names, positions, weights and active indices). -/
theorem transfer_shape_keys_deterministic
    (ev : MObj → MObj → List (ℤ × ℤ × ℤ)) (keys : Option (List String))
    (bn : String) (src target : MObj) (o1 o2 : MObj × MObj)
    (h1 : TransferRel ev keys bn src target o1)
    (h2 : TransferRel ev keys bn src target o2) : o1 = o2 := by
  cases h1 with
  | no_keys h =>
    cases h2 with
    | no_keys _ => rfl
    | run h2s _ => rw [h] at h2s; cases h2s
  | run h1s h1l =>
    cases h2 with
    | no_keys h => rw [h] at h1s; cases h1s
    | run h2s h2l =>
      rw [h1s] at h2s
      injection h2s with he
      subst he
      rw [transferLoopRel_det h1l h2l]

/-- The loop function realises the loop relation. -/
lemma transferLoopRel_of_fun (ev : MObj → MObj → List (ℤ × ℤ × ℤ))
    (keys : Option (List String)) :
    ∀ (l : List Nat) (st : MObj × MObj),
      TransferLoopRel ev keys l st (transferLoop ev keys l st) := by
  intro l
  induction l with
  | nil => intro st; exact TransferLoopRel.nil st
  | cons i rest ih =>
    intro st
    unfold transferLoop
    split
    · rename_i hf
      exact TransferLoopRel.moved hf (ih (transferStep ev i st))
    · rename_i hf
      exact TransferLoopRel.skipped (by simpa using hf) (ih st)

/-- The transfer function realises the transfer relation. -/
lemma transferRel_of_fun (ev : MObj → MObj → List (ℤ × ℤ × ℤ))
    (keys : Option (List String)) (bn : String) (src target : MObj) :
    TransferRel ev keys bn src target (transfer_shape_keys ev src target keys bn) := by
  unfold transfer_shape_keys
  cases h : src.shape_keys with
  | none => exact TransferRel.no_keys h
  | some skb =>
    exact TransferRel.run h
      (transferLoopRel_of_fun ev keys
        (List.range' 1 (skb.key_blocks.length - 1))
        (src, add_shape_key (shape_key_clear target) bn))

/-- Witness for C8: two runs on the concrete example scene, both
related by `TransferRel`, coincide. -/
theorem transfer_shape_keys_deterministic_witness :
    transfer_shape_keys cexEval cexSrc cexTarget none "Basis"
      = transfer_shape_keys cexEval cexSrc cexTarget none "Basis" :=
  transfer_shape_keys_deterministic cexEval none "Basis" cexSrc cexTarget _ _
    (transferRel_of_fun cexEval none "Basis" cexSrc cexTarget)
    (transferRel_of_fun cexEval none "Basis" cexSrc cexTarget)
